import Mathlib

/-!
Verification development for the model-comparison and feature-importance
routine of the repository's regression notebook
(`src/03-linear-regression-reg_ML.ipynb`).

The notebook's own logic is shallowly embedded here:
real-valued data is modelled over `ℚ` (the order/arithmetic properties at
stake do not depend on rounding), `np.sqrt` over `ℝ`, and the IEEE
non-finite values produced by an unguarded division are modelled by
`Option ℚ`, with `none` standing for a non-finite float that propagates
through subsequent arithmetic.
-/

/-- A finite float division, `a / b`. When the denominator is zero, numpy
produces a non-finite value (`inf` or `nan`), modelled as `none`; warnings
are suppressed in the notebook and no exception is raised. -/
def npDivide (a b : ℚ) : Option ℚ :=
  if b = 0 then none else some (a / b)

/-- Collect elementwise float results: if any entry is non-finite (`none`),
the whole vector is poisoned and every aggregate of it (numpy mean) is
non-finite. -/
def collectFinite : List (Option ℚ) → Option (List ℚ)
  | [] => some []
  | none :: _ => none
  | some q :: rest => (collectFinite rest).map (fun l => q :: l)

/-- Mean of a list, `l.sum / l.length` (numpy `mean`; the notebook only
applies it to non-empty partitions). -/
def listMean (l : List ℚ) : ℚ := l.sum / l.length

/-- sklearn `mean_squared_error`: mean of squared residuals. -/
def mean_squared_error (y_true y_pred : List ℚ) : ℚ :=
  listMean (List.zipWith (fun a b => (a - b) ^ 2) y_true y_pred)

/-- sklearn `mean_absolute_error`: mean of absolute residuals. -/
def mean_absolute_error (y_true y_pred : List ℚ) : ℚ :=
  listMean (List.zipWith (fun a b => |a - b|) y_true y_pred)

/-- sklearn `r2_score` (single output): with `numerator` the residual sum of
squares and `denominator` the total sum of squares, sklearn returns
`1.0` when the numerator is zero, `0.0` when only the denominator is zero,
and `1 - numerator / denominator` otherwise. -/
def r2_score (y_true y_pred : List ℚ) : ℚ :=
  let numerator := (List.zipWith (fun a b => (a - b) ^ 2) y_true y_pred).sum
  let denominator := (y_true.map (fun a => (a - listMean y_true) ^ 2)).sum
  if numerator = 0 then 1
  else if denominator = 0 then 0
  else 1 - numerator / denominator

/-- The notebook's MAPE line:
`np.mean(np.abs((y_true - y_pred) / y_true)) * 100`.
The division is unguarded; a zero true value yields a non-finite entry
which poisons the mean. -/
def mape (y_true y_pred : List ℚ) : Option ℚ :=
  (collectFinite (List.zipWith (fun a b => npDivide (a - b) a) y_true y_pred)).map
    (fun qs => listMean (qs.map (fun q => |q|)) * 100)

/-- The metric bundle returned by `calculate_metrics`:
`{'R2': r2, 'RMSE': rmse, 'MAE': mae, 'MAPE': mape}`. RMSE involves a real
square root; MAPE may be non-finite. -/
structure MetricBundle where
  R2 : ℚ
  RMSE : ℝ
  MAE : ℚ
  MAPE : Option ℚ

/-- The notebook's `calculate_metrics(y_true, y_pred)`:
`mse = mean_squared_error(...); rmse = np.sqrt(mse);
mae = mean_absolute_error(...); r2 = r2_score(...);
mape = np.mean(np.abs((y_true - y_pred) / y_true)) * 100`. -/
noncomputable def calculate_metrics (y_true y_pred : List ℚ) : MetricBundle :=
  { R2 := r2_score y_true y_pred
    RMSE := Real.sqrt ((mean_squared_error y_true y_pred : ℚ) : ℝ)
    MAE := mean_absolute_error y_true y_pred
    MAPE := mape y_true y_pred }

lemma zipWith_sq_sub_self_sum (t : List ℚ) :
    (List.zipWith (fun a b => (a - b) ^ 2) t t).sum = 0 := by
  induction t with
  | nil => simp
  | cons a t ih => simp [ih]

lemma zipWith_abs_sub_self_sum (t : List ℚ) :
    (List.zipWith (fun a b => |a - b|) t t).sum = 0 := by
  induction t with
  | nil => simp
  | cons a t ih => simp [ih]

lemma collectFinite_zero_mem (t p : List ℚ) (hlen : t.length = p.length)
    (hz : (0 : ℚ) ∈ t) :
    collectFinite (List.zipWith (fun a b => npDivide (a - b) a) t p) = none := by
  induction t generalizing p with
  | nil => simp at hz
  | cons a t ih =>
    match p with
    | [] => simp at hlen
    | b :: p =>
      rcases List.mem_cons.mp hz with ha | ha
      · subst ha
        simp [List.zipWith, npDivide, collectFinite]
      · by_cases h0 : a = 0
        · subst h0
          simp [List.zipWith, npDivide, collectFinite]
        · have hlen' : t.length = p.length := by
            simpa using hlen
          have htail := ih p hlen' ha
          simp only [npDivide] at htail
          simp [List.zipWith, npDivide, h0, collectFinite, htail]

/-- C5: a zero true target makes the MAPE division unguardedly divide by
zero; the non-finite result propagates silently into the metric bundle —
the routine still returns a full bundle (here: its R² is the ordinary
`r2_score`), no exception and no guard intervening. -/
theorem mape_division_by_zero (y_true y_pred : List ℚ)
    (hlen : y_true.length = y_pred.length) (hz : (0 : ℚ) ∈ y_true) :
    (calculate_metrics y_true y_pred).MAPE = none ∧
    (calculate_metrics y_true y_pred).R2 = r2_score y_true y_pred := by
  refine ⟨?_, rfl⟩
  simp [calculate_metrics, mape, collectFinite_zero_mem y_true y_pred hlen hz]

/-- Witness for C5 at the concrete partition `y_true = [0, 1]`,
`y_pred = [1, 1]`. -/
theorem mape_division_by_zero_witness :
    ([0, 1] : List ℚ).length = ([1, 1] : List ℚ).length ∧
    ((0 : ℚ) ∈ ([0, 1] : List ℚ)) ∧
    ((calculate_metrics [0, 1] [1, 1]).MAPE = none ∧
      (calculate_metrics [0, 1] [1, 1]).R2 = r2_score [0, 1] [1, 1]) :=
  ⟨by decide, by decide,
    mape_division_by_zero [0, 1] [1, 1] (by decide) (by decide)⟩

/-- C6: on a perfect prediction (predicted equals true for every row of a
non-empty partition), the metric bundle has R² = 1, RMSE = 0 and MAE = 0. -/
theorem perfect_prediction_metrics (y_true : List ℚ) (hne : y_true ≠ []) :
    (calculate_metrics y_true y_true).R2 = 1 ∧
    (calculate_metrics y_true y_true).RMSE = 0 ∧
    (calculate_metrics y_true y_true).MAE = 0 := by
  refine ⟨?_, ?_, ?_⟩
  · simp [calculate_metrics, r2_score, zipWith_sq_sub_self_sum]
  · simp [calculate_metrics, mean_squared_error, listMean,
      zipWith_sq_sub_self_sum]
  · simp [calculate_metrics, mean_absolute_error, listMean,
      zipWith_abs_sub_self_sum]

/-- Witness for C6 at the concrete partition `y_true = [1, 2]`. -/
theorem perfect_prediction_metrics_witness :
    ([1, 2] : List ℚ) ≠ [] ∧
    ((calculate_metrics [1, 2] [1, 2]).R2 = 1 ∧
      (calculate_metrics [1, 2] [1, 2]).RMSE = 0 ∧
      (calculate_metrics [1, 2] [1, 2]).MAE = 0) :=
  ⟨by decide, perfect_prediction_metrics [1, 2] (by decide)⟩

/-- One comparison step of CPython's builtin `max` with a key function:
the running best is replaced only when the new item's key is strictly
greater, so on an exact tie the earlier item is kept. -/
def pyMaxStep (best y : String × ℚ) : String × ℚ :=
  if best.2 < y.2 then y else best

/-- The notebook's
`best_model_name = max(results.keys(), key=lambda k: results[k]['Test R2'])`,
with `results` modelled as the association list of (estimator name,
test R²) in dict iteration order. -/
def py_max : List (String × ℚ) → Option (String × ℚ)
  | [] => none
  | x :: xs => some (List.foldl pyMaxStep x xs)

/-- The winner's name: first component of the maximal pair. -/
def best_model_name (results : List (String × ℚ)) : Option String :=
  (py_max results).map Prod.fst

lemma py_max_foldl : ∀ (xs : List (String × ℚ)) (b : String × ℚ),
    (∀ y ∈ xs, y.2 ≤ (List.foldl pyMaxStep b xs).2) ∧
    b.2 ≤ (List.foldl pyMaxStep b xs).2 ∧
    (List.foldl pyMaxStep b xs = b ∨
      ∃ pre post, xs = pre ++ List.foldl pyMaxStep b xs :: post ∧
        b.2 < (List.foldl pyMaxStep b xs).2 ∧
        ∀ z ∈ pre, z.2 < (List.foldl pyMaxStep b xs).2)
  | [], b => ⟨by simp, le_refl _, Or.inl rfl⟩
  | y :: ys, b => by
    by_cases hby : b.2 < y.2
    · have hstep : pyMaxStep b y = y := by simp [pyMaxStep, hby]
      obtain ⟨h1, h2, h3⟩ := py_max_foldl ys y
      have hfold : List.foldl pyMaxStep b (y :: ys) =
          List.foldl pyMaxStep y ys := by
        rw [List.foldl_cons, hstep]
      rw [hfold]
      refine ⟨?_, le_of_lt (lt_of_lt_of_le hby h2), ?_⟩
      · intro z hz
        rcases List.mem_cons.mp hz with rfl | h
        · exact h2
        · exact h1 z h
      · right
        rcases h3 with h | ⟨pre, post, hsplit, hlt, hpre⟩
        · refine ⟨[], ys, by simp [h], ?_, by simp⟩
          rw [h]
          exact hby
        · refine ⟨y :: pre, post, by rw [List.cons_append, ← hsplit], ?_, ?_⟩
          · exact lt_trans hby hlt
          · intro z hz
            rcases List.mem_cons.mp hz with rfl | h
            · exact hlt
            · exact hpre z h
    · have hstep : pyMaxStep b y = b := by simp [pyMaxStep, hby]
      obtain ⟨h1, h2, h3⟩ := py_max_foldl ys b
      have hfold : List.foldl pyMaxStep b (y :: ys) =
          List.foldl pyMaxStep b ys := by
        rw [List.foldl_cons, hstep]
      rw [hfold]
      refine ⟨?_, h2, ?_⟩
      · intro z hz
        rcases List.mem_cons.mp hz with rfl | h
        · exact le_trans (le_of_not_lt hby) h2
        · exact h1 z h
      · rcases h3 with h | ⟨pre, post, hsplit, hlt, hpre⟩
        · exact Or.inl h
        · right
          refine ⟨y :: pre, post, by rw [List.cons_append, ← hsplit], hlt, ?_⟩
          intro z hz
          rcases List.mem_cons.mp hz with rfl | h
          · exact lt_of_le_of_lt (le_of_not_lt hby) hlt
          · exact hpre z h

/-- C1: `best_model_name` is a stable argmax over the iteration sequence:
the selected pair is maximal in test R², and every pair encountered
before it has strictly smaller test R², so on exact ties the first
maximal estimator wins. -/
theorem best_model_stable_argmax (l : List (String × ℚ)) (hne : l ≠ []) :
    ∃ r pre post, py_max l = some r ∧ l = pre ++ r :: post ∧
      (∀ y ∈ l, y.2 ≤ r.2) ∧ (∀ y ∈ pre, y.2 < r.2) := by
  match l with
  | x :: xs =>
    obtain ⟨h1, h2, h3⟩ := py_max_foldl xs x
    refine ⟨List.foldl pyMaxStep x xs, ?_⟩
    rcases h3 with h | ⟨pre, post, hsplit, hlt, hpre⟩
    · refine ⟨[], xs, rfl, by simp [h], ?_, by simp⟩
      intro y hy
      rcases List.mem_cons.mp hy with hy | hy
      · exact hy ▸ h2
      · exact h1 y hy
    · refine ⟨x :: pre, post, rfl, by rw [List.cons_append, ← hsplit], ?_, ?_⟩
      · intro y hy
        rcases List.mem_cons.mp hy with hy | hy
        · exact hy ▸ h2
        · exact h1 y hy
      · intro y hy
        rcases List.mem_cons.mp hy with hy | hy
        · exact hy ▸ hlt
        · exact hpre y hy

/-- Witness for C1 at a results list with an exact tie: the theorem applies
and yields the stable-argmax decomposition. -/
theorem best_model_stable_argmax_witness :
    ([("A", (1 : ℚ)), ("B", 1)] ≠ []) ∧
    (∃ r pre post, py_max [("A", (1 : ℚ)), ("B", 1)] = some r ∧
      [("A", (1 : ℚ)), ("B", 1)] = pre ++ r :: post ∧
      (∀ y ∈ [("A", (1 : ℚ)), ("B", 1)], y.2 ≤ r.2) ∧
      (∀ y ∈ pre, y.2 < r.2)) :=
  ⟨by decide, best_model_stable_argmax [("A", 1), ("B", 1)] (by decide)⟩

/-- The four estimators of the notebook's `models` dict, in insertion
(= iteration) order: `LinearRegression()`, `Ridge(alpha=1.0)`,
`Lasso(alpha=1.0)`, `ElasticNet(alpha=1.0, l1_ratio=0.5)`. -/
def models_order : List String :=
  ["Linear Regression", "Ridge", "Lasso", "ElasticNet"]

/-- C7: whenever the ridge test R² is strictly the largest of the four,
the comparator selects "Ridge". -/
theorem ridge_selected (r1 r2 r3 r4 : ℚ)
    (h1 : r1 < r2) (h3 : r3 < r2) (h4 : r4 < r2) :
    best_model_name (models_order.zip [r1, r2, r3, r4]) = some "Ridge" := by
  have n3 : ¬ (r2 < r3) := not_lt.mpr (le_of_lt h3)
  have n4 : ¬ (r2 < r4) := not_lt.mpr (le_of_lt h4)
  simp [best_model_name, py_max, models_order, pyMaxStep, List.foldl, h1, n3, n4]

/-- Witness for C7 at the notebook's observed test R² values
(0.9668, 0.9672, 0.5398, 0.7694). -/
theorem ridge_selected_witness :
    ((0.9668 : ℚ) < 0.9672 ∧ (0.5398 : ℚ) < 0.9672 ∧ (0.7694 : ℚ) < 0.9672) ∧
    best_model_name (models_order.zip [0.9668, 0.9672, 0.5398, 0.7694]) =
      some "Ridge" :=
  ⟨⟨by norm_num, by norm_num, by norm_num⟩,
    ridge_selected 0.9668 0.9672 0.5398 0.7694
      (by norm_num) (by norm_num) (by norm_num)⟩

/-- The per-estimator record stored by the loop:
`results[name] = {'Train R2': ..., 'Test R2': ..., 'Test RMSE': ...,
'Test MAE': ..., 'Overfitting': train R² - test R²}`. -/
structure ModelRecord where
  train_r2 : ℚ
  test_r2 : ℚ
  test_rmse : ℝ
  test_mae : ℚ
  overfitting : ℚ

/-- Building one `results` entry from the loop's train/test predictions,
exactly the five keys stored by the notebook. -/
noncomputable def results_entry
    (y_train y_train_pred y_test y_test_pred : List ℚ) : ModelRecord :=
  let train_metrics := calculate_metrics y_train y_train_pred
  let test_metrics := calculate_metrics y_test y_test_pred
  { train_r2 := train_metrics.R2
    test_r2 := test_metrics.R2
    test_rmse := test_metrics.RMSE
    test_mae := test_metrics.MAE
    overfitting := train_metrics.R2 - test_metrics.R2 }

/-- C4: the recorded entry holds exactly train R², test R², test RMSE,
test MAE and an overfitting score that is literally train R² minus
test R² — never clamped, and negative on a concrete run where the test
fit is better than the train fit. -/
theorem overfitting_exact_difference :
    (∀ y_train y_train_pred y_test y_test_pred : List ℚ,
      (results_entry y_train y_train_pred y_test y_test_pred).train_r2 =
        r2_score y_train y_train_pred ∧
      (results_entry y_train y_train_pred y_test y_test_pred).test_r2 =
        r2_score y_test y_test_pred ∧
      (results_entry y_train y_train_pred y_test y_test_pred).test_rmse =
        (calculate_metrics y_test y_test_pred).RMSE ∧
      (results_entry y_train y_train_pred y_test y_test_pred).test_mae =
        mean_absolute_error y_test y_test_pred ∧
      (results_entry y_train y_train_pred y_test y_test_pred).overfitting =
        r2_score y_train y_train_pred - r2_score y_test y_test_pred) ∧
    (results_entry [0, 1, 2] [0, 1, 1] [0, 1] [0, 1]).overfitting < 0 := by
  constructor
  · intro a b c d
    exact ⟨rfl, rfl, rfl, rfl, rfl⟩
  · show r2_score [0, 1, 2] [0, 1, 1] - r2_score [0, 1] [0, 1] < 0
    norm_num [r2_score, listMean]

/-- The key relation of the pandas ascending argsort on the
feature-importance frame: compare rows (feature name, coefficient) by
absolute coefficient, the frame's `Abs_Coefficient` column. -/
def absCoefLe (a b : String × ℚ) : Prop := |a.2| ≤ |b.2|

instance : DecidableRel absCoefLe := fun a b => by
  unfold absCoefLe
  infer_instance

instance : IsTotal (String × ℚ) absCoefLe :=
  ⟨fun a b => le_total |a.2| |b.2|⟩

instance : IsTrans (String × ℚ) absCoefLe :=
  ⟨fun _ _ _ hab hbc => le_trans hab hbc⟩

/-- The notebook's
`feature_importance = pd.DataFrame({...}).sort_values('Abs_Coefficient',
ascending=False)`. pandas `nargsort` computes the ascending argsort of the
column and, for `ascending=False`, reverses that permutation wholesale
(`indexer = indexer[::-1]`). The ascending argsort is modelled by a stable
insertion sort, exact for frames below numpy introsort's small-partition
cutoff (the refuting instance below has two rows). -/
def feature_importance (rows : List (String × ℚ)) : List (String × ℚ) :=
  (List.insertionSort absCoefLe rows).reverse

/-- Modelled from the spec's words, for comparison with the code's
`feature_importance`: a stable descending sort by absolute coefficient
value, in which equal-absolute-value rows keep their original order. -/
def stable_desc_sort (rows : List (String × ℚ)) : List (String × ℚ) :=
  List.insertionSort (fun a b => |b.2| ≤ |a.2|) rows

lemma feature_importance_perm (rows : List (String × ℚ)) :
    List.Perm (feature_importance rows) rows :=
  (List.reverse_perm (List.insertionSort absCoefLe rows)).trans
    (List.perm_insertionSort absCoefLe rows)

/-- C2 counterexample: on two features with exactly equal absolute
coefficients, the ranking produced by the code reverses their original
order instead of keeping it — the sort is not stable. -/
theorem feature_importance_not_stable :
    feature_importance [("a", (1 : ℚ)), ("b", -1)] = [("b", -1), ("a", 1)] ∧
    stable_desc_sort [("a", (1 : ℚ)), ("b", -1)] = [("a", 1), ("b", -1)] ∧
    feature_importance [("a", (1 : ℚ)), ("b", -1)] ≠
      stable_desc_sort [("a", (1 : ℚ)), ("b", -1)] := by
  refine ⟨by decide, by decide, by decide⟩

/-- C2 amended: the ranking is a permutation of the feature rows sorted in
descending order of absolute coefficient, and — being a pure function of
the coefficients — re-running on identical coefficients reproduces it;
but it is not stable: equal absolute coefficients come out in reverse of
their original order. -/
theorem feature_importance_sorted_desc (rows : List (String × ℚ)) :
    (feature_importance rows).Pairwise (fun a b => |b.2| ≤ |a.2|) ∧
    List.Perm (feature_importance rows) rows := by
  refine ⟨?_, feature_importance_perm rows⟩
  rw [feature_importance]
  exact List.pairwise_reverse.mpr (List.sorted_insertionSort absCoefLe rows)

/-- The summary's "Strongest positive predictor" line: guarded only by the
frame being non-empty, it reports `feature_importance.iloc[0]` — the head
row of the absolute-value ranking, whatever the sign of its coefficient. -/
def strongest_positive (fi : List (String × ℚ)) : Option (String × ℚ) :=
  match fi with
  | [] => none
  | x :: _ => some x

/-- C3: on the coefficient vector `a ↦ -5, b ↦ 3` the head of the
absolute-value ranking is `a` with coefficient `-5`, so the code prints a
strictly negative coefficient under the label "Strongest positive
predictor" even though a strictly positive coefficient (of `b`) exists —
contradicting the code's own output label and the spec's reading of it. -/
theorem strongest_positive_mislabeled :
    strongest_positive (feature_importance [("a", (-5 : ℚ)), ("b", 3)]) =
      some ("a", -5) ∧ ((-5 : ℚ) < 0) ∧ ((0 : ℚ) < 3) :=
  ⟨by decide, by norm_num, by norm_num⟩

/-- The summary's impact counts, `sum(coefficients > 0)` and
`sum(coefficients < 0)`: strict comparisons over the coefficient vector. -/
def positive_impact_count (coefficients : List ℚ) : Nat :=
  coefficients.countP (fun c => decide (0 < c))

/-- Count of strictly negative coefficients, `sum(coefficients < 0)`. -/
def negative_impact_count (coefficients : List ℚ) : Nat :=
  coefficients.countP (fun c => decide (c < 0))

/-- C9: both impact counts use strict comparisons, so each coefficient
equal to zero is counted by neither side: the two counts plus the zero
count partition the features, and in particular the counts sum to at most
the number of features. -/
theorem impact_counts_strict (coefficients : List ℚ) :
    positive_impact_count coefficients + negative_impact_count coefficients +
      coefficients.countP (fun c => decide (c = 0)) = coefficients.length ∧
    positive_impact_count coefficients + negative_impact_count coefficients ≤
      coefficients.length := by
  have key : positive_impact_count coefficients +
      negative_impact_count coefficients +
      coefficients.countP (fun c => decide (c = 0)) = coefficients.length := by
    induction coefficients with
    | nil => rfl
    | cons c l ih =>
      unfold positive_impact_count negative_impact_count at ih ⊢
      rcases lt_trichotomy c 0 with h | h | h
      · simp only [List.countP_cons, List.length_cons, decide_eq_true_eq,
          not_lt.mpr (le_of_lt h), h, ne_of_lt h, decide_eq_false, if_true,
          if_false]
        omega
      · subst h
        simp only [List.countP_cons, List.length_cons]
        norm_num
        omega
      · simp only [List.countP_cons, List.length_cons, decide_eq_true_eq,
          not_lt.mpr (le_of_lt h), h, ne_of_gt h, decide_eq_false, if_true,
          if_false]
        omega
  exact ⟨key, by omega⟩

/-- The guarded negative-extreme lookup:
`negative_features = feature_importance[feature_importance['Coefficient'] < 0]`
followed by `if len(negative_features) > 0:` — when the selection is
empty the summary line is simply omitted (`none`), and the `iloc[0]`
lookup is never evaluated. -/
def strongest_negative (fi : List (String × ℚ)) : Option (String × ℚ) :=
  match fi.filter (fun x => decide (x.2 < 0)) with
  | [] => none
  | x :: _ => some x

/-- C10: when the coefficient vector has no strictly negative entry, the
negative-features selection is empty, the emptiness guard fails, and the
strongest-negative entry is omitted without error. -/
theorem strongest_negative_guarded (rows : List (String × ℚ))
    (h : ∀ x ∈ rows, 0 ≤ x.2) :
    strongest_negative (feature_importance rows) = none := by
  have hfil : (feature_importance rows).filter (fun x => decide (x.2 < 0)) = [] := by
    apply List.filter_eq_nil_iff.mpr
    intro x hx
    simp only [decide_eq_true_eq, not_lt]
    exact h x ((feature_importance_perm rows).mem_iff.mp hx)
  rw [strongest_negative, hfil]

/-- Witness for C10 at the concrete all-nonnegative coefficient vector
`a ↦ 2, b ↦ 0`. -/
theorem strongest_negative_guarded_witness :
    (∀ x ∈ [("a", (2 : ℚ)), ("b", 0)], 0 ≤ x.2) ∧
    strongest_negative (feature_importance [("a", (2 : ℚ)), ("b", 0)]) = none :=
  ⟨by decide, strongest_negative_guarded [("a", 2), ("b", 0)] (by decide)⟩

/-- An estimator as the comparison loop sees it: an opaque library service
exposing `fit` (learn a coefficient vector from a training partition) and
`predict` (a pure function of learned coefficients and a feature matrix). -/
structure RegEstimator where
  fit : List (List ℚ) → List ℚ → List ℚ
  predict : List ℚ → List (List ℚ) → List ℚ

/-- The notebook's in-memory and on-disk state around the comparison cell:
the four loaded data frames, the `results` and `predictions` dicts being
filled, and the files written so far (the observable storage effects). -/
structure NotebookState where
  X_train : List (List ℚ)
  y_train : List ℚ
  X_test : List (List ℚ)
  y_test : List ℚ
  results : List (String × ModelRecord)
  predictions : List (String × List ℚ)
  files_written : List (String × List ℚ)

/-- One iteration of `for name, model in models.items():` — fit on the
training partition, predict on both partitions, store the test prediction
vector and the metric record under the estimator's name. -/
noncomputable def train_eval_step (nm : String) (m : RegEstimator)
    (s : NotebookState) : NotebookState :=
  let coef := m.fit s.X_train s.y_train
  let y_train_pred := m.predict coef s.X_train
  let y_test_pred := m.predict coef s.X_test
  { s with
    results := s.results ++
      [(nm, results_entry s.y_train y_train_pred s.y_test y_test_pred)]
    predictions := s.predictions ++ [(nm, y_test_pred)] }

/-- The whole comparison loop over the estimator map, in iteration order. -/
noncomputable def comparison_loop (ms : List (String × RegEstimator))
    (s : NotebookState) : NotebookState :=
  ms.foldl (fun st nm => train_eval_step nm.1 nm.2 st) s

/-- The separate model-saving cell, `pickle.dump(best_model, f)` on the
opened `model_path`: the notebook's only write to storage. -/
def save_best_model (model_path : String) (coef : List ℚ)
    (s : NotebookState) : NotebookState :=
  { s with files_written := s.files_written ++ [(model_path, coef)] }

/-- C8: the comparison loop leaves the training and test feature matrices
and target vectors untouched and writes nothing to storage — its only
effect is the in-memory report; serializing the winner is the separate
`save_best_model` step, which appends exactly one file and in turn leaves
the report alone. -/
theorem comparison_loop_frame :
    (∀ (ms : List (String × RegEstimator)) (s : NotebookState),
      (comparison_loop ms s).X_train = s.X_train ∧
      (comparison_loop ms s).y_train = s.y_train ∧
      (comparison_loop ms s).X_test = s.X_test ∧
      (comparison_loop ms s).y_test = s.y_test ∧
      (comparison_loop ms s).files_written = s.files_written) ∧
    (∀ (model_path : String) (coef : List ℚ) (s : NotebookState),
      (save_best_model model_path coef s).files_written =
        s.files_written ++ [(model_path, coef)] ∧
      (save_best_model model_path coef s).results = s.results ∧
      (save_best_model model_path coef s).X_train = s.X_train) := by
  constructor
  · intro ms
    induction ms with
    | nil => exact fun s => ⟨rfl, rfl, rfl, rfl, rfl⟩
    | cons m ms ih =>
      intro s
      have h := ih (train_eval_step m.1 m.2 s)
      exact h
  · intro model_path coef s
    exact ⟨rfl, rfl, rfl⟩
